import Mathlib

/-!
# Smart-Task-Analyzer: shallow embedding of `backend/tasks/scoring.py`

This file embeds the scoring engine of the repository in Lean 4 and proves
properties of it.  Python integers become `ℤ` (or `ℕ` where the source value
is manifestly non-negative), Python floats become `ℚ` where the source
computes only field arithmetic and `ℝ` where `math.log1p` is involved,
`None`-able values become `Option`, and Python's `datetime.date` becomes the
`PDate` structure below together with the proleptic-Gregorian ordinal
(`date.toordinal`) that defines its ordering and day arithmetic.
-/

namespace STA

/-- Python `datetime.date`: a (year, month, day) triple.  Python validates the
fields at construction time; here validity is the separate predicate
`PDate.Valid` and is assumed where needed. -/
structure PDate where
  year : ℕ
  month : ℕ
  day : ℕ
  deriving DecidableEq, Repr

/-- Gregorian leap-year test, as in Python's `calendar.isleap` /
`datetime`'s internal `_is_leap`. -/
def isLeap (y : ℕ) : Bool :=
  y % 4 = 0 && (y % 100 ≠ 0 || y % 400 = 0)

/-- Number of days in a month (month `1..12`).  Out-of-range months are given
a junk value, never reached on valid dates. -/
def daysInMonth (y m : ℕ) : ℕ :=
  if m = 2 then (if isLeap y then 29 else 28)
  else if m = 4 ∨ m = 6 ∨ m = 9 ∨ m = 11 then 30
  else 31

/-- CPython's `_DAYS_BEFORE_MONTH` table (month `1..12`). -/
def daysBeforeMonthTable : ℕ → ℕ
  | 1 => 0
  | 2 => 31
  | 3 => 59
  | 4 => 90
  | 5 => 120
  | 6 => 151
  | 7 => 181
  | 8 => 212
  | 9 => 243
  | 10 => 273
  | 11 => 304
  | 12 => 334
  | _ => 0

/-- Days in the months strictly before month `m` of year `y`
(`datetime`'s `_days_before_month`: the table plus the leap-day correction
after February). -/
def daysBeforeMonth (y m : ℕ) : ℕ :=
  daysBeforeMonthTable m + (if 2 < m ∧ isLeap y then 1 else 0)

/-- Days before January 1st of year `y` (`datetime`'s `_days_before_year`):
`365*(y-1) + (y-1)//4 - (y-1)//100 + (y-1)//400`. -/
def daysBeforeYear (y : ℕ) : ℕ :=
  365 * (y - 1) + ((y - 1) / 4 - (y - 1) / 100) + (y - 1) / 400

/-- Python `date.toordinal()`: day 1 is 0001-01-01. -/
def toOrdinal (d : PDate) : ℕ :=
  daysBeforeYear d.year + daysBeforeMonth d.year d.month + d.day

/-- Python `date.weekday()`: Monday = 0 .. Sunday = 6.
0001-01-01 (ordinal 1) is a Monday. -/
def pweekday (d : PDate) : ℕ :=
  (toOrdinal d + 6) % 7

/-- `cursor + timedelta(days=1)` of the source loop, computed on the
calendar representation. -/
def nextDay (d : PDate) : PDate :=
  if d.day < daysInMonth d.year d.month then ⟨d.year, d.month, d.day + 1⟩
  else if d.month < 12 then ⟨d.year, d.month + 1, 1⟩
  else ⟨d.year + 1, 1, 1⟩

/-- Python `date` comparison: lexicographic on (year, month, day). -/
def pdateLt (a b : PDate) : Bool :=
  a.year < b.year ∨
    (a.year = b.year ∧ (a.month < b.month ∨ (a.month = b.month ∧ a.day < b.day)))

/-- A calendar-valid date, as Python's `date` constructor enforces
(we do not need the year-9999 upper cap for any proof). -/
def PDate.Valid (d : PDate) : Prop :=
  1 ≤ d.year ∧ 1 ≤ d.month ∧ d.month ≤ 12 ∧ 1 ≤ d.day ∧ d.day ≤ daysInMonth d.year d.month

instance (d : PDate) : Decidable d.Valid := by
  unfold PDate.Valid; infer_instance

/-- `INDIA_HOLIDAYS_FIXED` from the source: fixed (month, day) pairs. -/
def INDIA_HOLIDAYS_FIXED : List (ℕ × ℕ) :=
  [(1, 1), (1, 26), (5, 1), (8, 15), (10, 2), (12, 25)]

/-- `_is_non_working_day`: weekend (`weekday() >= 5`) or fixed holiday. -/
def isNonWorkingDay (candidate : PDate) : Bool :=
  5 ≤ pweekday candidate ∨ (candidate.month, candidate.day) ∈ INDIA_HOLIDAYS_FIXED

/-- The walk of the `while cursor < due` loop of `_working_days_until`,
counting working days over `fuel` successive calendar days starting at
`cursor`.  The loop in the source advances one calendar day per iteration
and stops at `due`, so its iteration count is the ordinal distance
`toordinal(due) - toordinal(today)`; `toOrdinal_nextDay` below proves that
`nextDay` advances the ordinal by exactly 1 on valid dates. -/
def workingDaysGo : ℕ → PDate → ℕ
  | 0, _ => 0
  | fuel + 1, cursor =>
      (if isNonWorkingDay cursor then 0 else 1) + workingDaysGo fuel (nextDay cursor)

/-- `_working_days_until(due, today)`: `-1` when `due < today`, else the
number of working days walked from `today` up to (excluding) `due`. -/
def workingDaysUntil (due today : PDate) : ℤ :=
  if pdateLt due today then -1
  else (workingDaysGo (toOrdinal due - toOrdinal today) today : ℤ)

/-- `_urgency(due, today)` as exact rational arithmetic (the source computes
with floats; every quantity here is a small exact fraction). -/
def urgency (due : Option PDate) (today : PDate) : ℚ :=
  match due with
  | none => 1/4
  | some d =>
      let workingDays := workingDaysUntil d today
      if workingDays < 0 then 1
      else 1 / (1 + (workingDays : ℚ) / 5)

end STA

namespace STA

/-! ## Untyped input values and Python coercions

Raw task records arrive as JSON-like data.  `Val` models the Python values
that can occur in a field: `None`, strings, ints, floats and lists.  The
numeric-string parsers model Python's `int(str)` / `float(str)` on the plain
decimal forms (optional sign, digits, optional fraction); exotic forms
(exponents, `inf`, underscores) are outside the model and no claim uses
them. -/

inductive Val where
  | none : Val
  | str (s : String) : Val
  | int (n : ℤ) : Val
  | float (q : ℚ) : Val
  | list (xs : List Val) : Val

/-- Digits-only parse of a nonempty character list. -/
def digitsToNat : List Char → Option ℕ
  | [] => Option.none
  | cs =>
    if cs.all (·.isDigit) then
      Option.some (cs.foldl (fun a c => a * 10 + (c.toNat - 48)) 0)
    else Option.none

/-- Whitespace-stripping on character lists (Python `str.strip()` for the
ASCII whitespace that can occur here). -/
def trimChars (cs : List Char) : List Char :=
  ((cs.dropWhile (·.isWhitespace)).reverse.dropWhile (·.isWhitespace)).reverse

/-- Python `str.strip()`. -/
def pyStrip (s : String) : String :=
  ⟨trimChars s.toList⟩

/-- Python `str.lower()` (ASCII). -/
def pyLower (s : String) : String :=
  ⟨s.toList.map Char.toLower⟩

/-- Python `int(s)` on a plain decimal string: strip, optional sign, digits. -/
def parseIntString (s : String) : Option ℤ :=
  match trimChars s.toList with
  | '-' :: rest => (digitsToNat rest).map (fun n => -(n : ℤ))
  | '+' :: rest => (digitsToNat rest).map (fun n => (n : ℤ))
  | cs => (digitsToNat cs).map (fun n => (n : ℤ))

/-- Python `float(s)` on a plain decimal string: strip, optional sign,
`digits`, `digits.`, `.digits` or `digits.digits`. -/
def parseFloatString (s : String) : Option ℚ :=
  let core : List Char → Option ℚ := fun cs =>
    let intPart := cs.takeWhile (· ≠ '.')
    let rest := cs.dropWhile (· ≠ '.')
    match rest with
    | [] =>
        (digitsToNat intPart).map (fun n => (n : ℚ))
    | '.' :: fracPart =>
        if intPart.all (·.isDigit) ∧ fracPart.all (·.isDigit) ∧
            (intPart ≠ [] ∨ fracPart ≠ []) then
          let ip := (intPart.foldl (fun a c => a * 10 + (c.toNat - 48)) 0 : ℚ)
          let fp := (fracPart.foldl (fun a c => a * 10 + (c.toNat - 48)) 0 : ℚ)
          Option.some (ip + fp / (10 : ℚ) ^ fracPart.length)
        else Option.none
    | _ => Option.none
  match trimChars s.toList with
  | '-' :: rest => (core rest).map (fun q => -q)
  | '+' :: rest => core rest
  | cs => core cs

/-- Truncation toward zero, Python `int(float)`. -/
def ratTrunc (q : ℚ) : ℤ :=
  if 0 ≤ q then ⌊q⌋ else ⌈q⌉

/-- Python `int(value)` on a `Val`; `Option.none` models a raised exception. -/
def pyInt : Val → Option ℤ
  | .int n => Option.some n
  | .float q => Option.some (ratTrunc q)
  | .str s => parseIntString s
  | _ => Option.none

/-- Python `float(value)` on a `Val`; `Option.none` models a raised
exception. -/
def pyFloat : Val → Option ℚ
  | .int n => Option.some (n : ℚ)
  | .float q => Option.some q
  | .str s => parseFloatString s
  | _ => Option.none

/-- Python `str(value)`.  Float and list rendering differ cosmetically from
CPython's `repr`; no claim depends on those cases. -/
def pyStr : Val → String
  | .none => "None"
  | .str s => s
  | .int n => toString n
  | .float q => toString q
  | .list _ => "[...]"

/-- Python truthiness of a `Val` (`None`, `""`, `[]`, `0`, `0.0` are falsy). -/
def valTruthy : Val → Bool
  | .none => false
  | .str s => decide (s ≠ "")
  | .int n => decide (n ≠ 0)
  | .float q => decide (q ≠ 0)
  | .list xs => !xs.isEmpty

/-- Python `value in (None, "", [])` (equality-based membership). -/
def isEmptyLike : Val → Bool
  | .none => true
  | .str s => decide (s = "")
  | .list xs => xs.isEmpty
  | _ => false

/-- Python `value in (None, "")`. -/
def isNoneOrEmptyStr : Val → Bool
  | .none => true
  | .str s => decide (s = "")
  | _ => false

/-- `date.fromisoformat` in the documented `YYYY-MM-DD` form used by the
source (its comment: `# YYYY-MM-DD`), including calendar validation. -/
def parseISODate (s : String) : Option PDate :=
  match s.toList with
  | [y1, y2, y3, y4, '-', m1, m2, '-', d1, d2] =>
      if [y1, y2, y3, y4, m1, m2, d1, d2].all (·.isDigit) then
        let num := fun (cs : List Char) => cs.foldl (fun a c => a * 10 + (c.toNat - 48)) 0
        let dt : PDate := ⟨num [y1, y2, y3, y4], num [m1, m2], num [d1, d2]⟩
        if dt.Valid then Option.some dt else Option.none
      else Option.none
  | _ => Option.none

/-- `_parse_date` from the source.  The `isinstance(value, date)` branch
cannot fire on JSON-like input (`Val` has no date constructor). -/
def parseDateV (value : Val) : Option PDate :=
  if isEmptyLike value then Option.none
  else match value with
    | .str s => parseISODate s
    | _ => Option.none

/-- `_parse_float` from the source: `None`/`""` pass through as missing,
exceptions become missing, non-positive values become missing. -/
def parseFloatV (value : Val) : Option ℚ :=
  if isNoneOrEmptyStr value then Option.none
  else match pyFloat value with
    | Option.some v => if v ≤ 0 then Option.none else Option.some v
    | Option.none => Option.none

/-- `_clamp_int` from the source. -/
def clampIntV (value : Val) (lo hi : ℤ) : Option ℤ :=
  if isNoneOrEmptyStr value then Option.none
  else match pyInt value with
    | Option.some v => Option.some (max lo (min hi v))
    | Option.none => Option.none

end STA

namespace STA

/-! ## Normalization (`normalize_tasks`) -/

/-- `NormalizedTask` from the source (frozen dataclass). -/
structure NormalizedTask where
  id : ℤ
  title : String
  due_date : Option PDate
  estimated_hours : Option ℚ
  importance : Option ℤ
  dependencies : List ℤ
  deriving DecidableEq, Repr

/-- A raw input record.  A field holds `Option.none` when the key is absent
from the dict (so that `t.get(key)`'s default applies) and `some v` when the
key is present with value `v` (which may itself be Python `None`,
i.e. `Val.none`). -/
structure RawTask where
  id : Option Val := Option.none
  title : Option Val := Option.none
  due_date : Option Val := Option.none
  estimated_hours : Option Val := Option.none
  importance : Option Val := Option.none
  dependencies : Option Val := Option.none

/-- The per-element dependency coercion loop of `normalize_tasks`
(`for d in deps_raw: try deps.append(int(d)) except: warning`). -/
def coerceDeps (tidS : String) : List Val → List ℤ × List String
  | [] => ([], [])
  | d :: rest =>
      let (ds, ws) := coerceDeps tidS rest
      match pyInt d with
      | Option.some n => (n :: ds, ws)
      | Option.none =>
          let dS := pyStr d
          (ds, (s!"Task {tidS}: dependency \x27{dS}\x27 invalid -> ignored") :: ws)

/-- One iteration of the `normalize_tasks` loop, at input index `idx`. -/
def normalizeOne (idx : ℕ) (t : RawTask) : NormalizedTask × List String :=
  -- id: `tid_raw = t.get("id", idx + 1); int(tid_raw)` with fallback `idx+1`
  let (tid, wId) : ℤ × List String :=
    match t.id with
    | Option.none => ((idx : ℤ) + 1, [])
    | Option.some v =>
        match pyInt v with
        | Option.some n => (n, [])
        | Option.none =>
            let vS := pyStr v
            let autoS := toString ((idx : ℤ) + 1)
            ((idx : ℤ) + 1,
              [s!"Task at index {idx}: invalid id \x27{vS}\x27 -> auto-assigned {autoS}"])
  let tidS := toString tid
  -- title: `str(t.get("title", "")).strip() or f"Untitled Task {tid}"`
  let titleStr := pyStrip (pyStr (t.title.getD (.str "")))
  let title := if titleStr = "" then s!"Untitled Task {tidS}" else titleStr
  -- due_date
  let dueRaw := t.due_date.getD .none
  let due := parseDateV dueRaw
  let wDue :=
    if ¬ isEmptyLike dueRaw ∧ due = Option.none then
      [s!"Task {tidS}: invalid due_date -> treated as missing"]
    else []
  -- estimated_hours
  let hoursRaw := t.estimated_hours.getD .none
  let hours := parseFloatV hoursRaw
  let wHours :=
    if ¬ isEmptyLike hoursRaw ∧ hours = Option.none then
      [s!"Task {tidS}: estimated_hours must be a positive number -> treated as missing"]
    else []
  -- importance
  let impRaw := t.importance.getD .none
  let importance := clampIntV impRaw 1 10
  let wImp :=
    if ¬ isEmptyLike impRaw ∧ importance = Option.none then
      [s!"Task {tidS}: invalid importance -> treated as missing"]
    else []
  -- dependencies: `deps_raw = t.get("dependencies") or []`
  let depsRaw0 := t.dependencies.getD .none
  let depsRaw1 := if valTruthy depsRaw0 then depsRaw0 else .list []
  let (depsList, wNotList) : List Val × List String :=
    match depsRaw1 with
    | .list xs => (xs, [])
    | _ => ([], [s!"Task {tidS}: dependencies is not a list -> ignored"])
  let (deps, wDeps) := coerceDeps tidS depsList
  (⟨tid, title, due, hours, importance, deps⟩,
    wId ++ wDue ++ wHours ++ wImp ++ wNotList ++ wDeps)

/-- The `normalize_tasks` loop over an indexed list. -/
def normalizeGo (idx : ℕ) : List RawTask → List NormalizedTask × List String
  | [] => ([], [])
  | t :: rest =>
      let (nt, ws) := normalizeOne idx t
      let (nts, ws') := normalizeGo (idx + 1) rest
      (nt :: nts, ws ++ ws')

/-- `normalize_tasks` from the source. -/
def normalize_tasks (rawTasks : List RawTask) : List NormalizedTask × List String :=
  normalizeGo 0 rawTasks

end STA

namespace STA

/-! ## Graph utilities

Python dicts keyed by task id are modelled as association lists with dict
semantics: insertion order is preserved, and re-assigning an existing key
updates the value in place (keeping the key's original position). -/

/-- `d[k] = v` on a Python dict. -/
def dictUpsert {β : Type} (m : List (ℤ × β)) (k : ℤ) (v : β) : List (ℤ × β) :=
  if m.any (fun p => decide (p.1 = k)) then
    m.map (fun p => if p.1 = k then (k, v) else p)
  else m ++ [(k, v)]

/-- `k in d` on a Python dict. -/
def dictHasKey {β : Type} (m : List (ℤ × β)) (k : ℤ) : Bool :=
  m.any (fun p => decide (p.1 = k))

/-- `d.get(k)` on a Python dict. -/
def dictGet {β : Type} (m : List (ℤ × β)) (k : ℤ) : Option β :=
  (m.find? (fun p => decide (p.1 = k))).map (·.2)

/-- `tasks_by_id = {t.id: t for t in tasks}`. -/
def tasksById (tasks : List NormalizedTask) : List (ℤ × NormalizedTask) :=
  tasks.foldl (fun m t => dictUpsert m t.id t) []

/-- `_build_graph`: id map, forward edges (dependencies filtered to known
ids) and reverse edges (dependents), as in the source. -/
def build_graph (tasks : List NormalizedTask) :
    List (ℤ × NormalizedTask) × List (ℤ × List ℤ) × List (ℤ × List ℤ) :=
  let byId := tasksById tasks
  let forward := tasks.foldl
    (fun m t => dictUpsert m t.id (t.dependencies.filter (fun d => dictHasKey byId d))) []
  let reverse0 := tasks.foldl (fun m t => dictUpsert m t.id ([] : List ℤ)) []
  let reverse := forward.foldl
    (fun m p => p.2.foldl
      (fun m dep => m.map (fun q => if q.1 = dep then (q.1, q.2 ++ [p.1]) else q)) m)
    reverse0
  (byId, forward, reverse)

/-- DFS state of `detect_cycles`: three-colour marks, the explicit open
stack (bottom of stack first, as the Python list), and the recorded cycles. -/
structure DfsSt where
  state : ℤ → ℕ
  stack : List ℤ
  cycles : List (List ℤ)

/-- Pointwise update of the colour map (`state[u] = v`). -/
def stateUpd (f : ℤ → ℕ) (k : ℤ) (v : ℕ) : ℤ → ℕ :=
  fun x => if x = k then v else f x

/-- The dependency list the `dfs` loop iterates over
(`tasks_by_id[u].dependencies`). -/
def depsOf (byId : List (ℤ × NormalizedTask)) (u : ℤ) : List ℤ :=
  match dictGet byId u with
  | Option.some t => t.dependencies
  | Option.none => []

/-- The recursive `dfs(u)` of `detect_cycles`, defunctionalized into an
explicit call-stack machine so that it is structurally recursive (and hence
kernel-evaluable): each frame `(u, vs)` is an open `dfs(u)` call with
remaining neighbours `vs`.  Entering a node marks it in-progress and pushes
it on the open stack; exhausting a frame marks the node done and pops; a
back-edge to an in-progress node on the stack records the stack slice from
that node, closed with the node itself — step for step the Python
recursion.  `fuel` bounds the number of machine steps; each step consumes
one unit, so any sufficiently large fuel reproduces the recursion exactly. -/
def dfsRun (byId : List (ℤ × NormalizedTask)) :
    ℕ → List (ℤ × List ℤ) → DfsSt → DfsSt
  | 0, _, s => s
  | _ + 1, [], s => s
  | f + 1, (u, []) :: frames, s =>
      dfsRun byId f frames ⟨stateUpd s.state u 2, s.stack.dropLast, s.cycles⟩
  | f + 1, (u, v :: vs) :: frames, s =>
      if ¬ dictHasKey byId v then dfsRun byId f ((u, vs) :: frames) s
      else if s.state v = 0 then
        dfsRun byId f ((v, depsOf byId v) :: (u, vs) :: frames)
          ⟨stateUpd s.state v 1, s.stack ++ [v], s.cycles⟩
      else if s.state v = 1 ∧ v ∈ s.stack then
        dfsRun byId f ((u, vs) :: frames)
          ⟨s.state, s.stack, s.cycles ++ [s.stack.drop (s.stack.indexOf v) ++ [v]]⟩
      else dfsRun byId f ((u, vs) :: frames) s

/-- A machine-step budget that always suffices: every step either consumes
a pending neighbour of an open frame or closes a frame, and at most one
frame per id is ever opened. -/
def dfsFuel (byId : List (ℤ × NormalizedTask)) : ℕ :=
  (byId.length + 1) * (byId.foldl (fun a p => a + p.2.dependencies.length) 0 + 2)

/-- A call `dfs(u)` on an unvisited root: mark, push, run the machine. -/
def dfsVisit (byId : List (ℤ × NormalizedTask)) (u : ℤ) (s : DfsSt) : DfsSt :=
  dfsRun byId (dfsFuel byId) [(u, depsOf byId u)]
    ⟨stateUpd s.state u 1, s.stack ++ [u], s.cycles⟩

/-- `detect_cycles` from the source: DFS from every id in dict order. -/
def detect_cycles (byId : List (ℤ × NormalizedTask)) : List (List ℤ) :=
  (byId.foldl
    (fun s p => if s.state p.1 = 0 then dfsVisit byId p.1 s else s)
    ⟨fun _ => 0, [], []⟩).cycles

/-- `_cycle_nodes`: the set of ids appearing in any cycle.  The source
builds a Python `set`, of which only membership is ever used; the
concatenation below has the same membership. -/
def cycleNodes (cycles : List (List ℤ)) : List ℤ :=
  cycles.flatten

/-- The `while stack` loop of `_downstream_block_count`.  The accumulator
list is the Python `seen` set in insertion order; the head of `stack` is the
top of the Python stack (Python pushes/pops at the right end of its list,
so `extend(xs)` reverses `xs` here). -/
def downstreamGo (rev : List (ℤ × List ℤ)) : ℕ → List ℤ → List ℤ → List ℤ
  | 0, _, seen => seen
  | _ + 1, [], seen => seen
  | f + 1, u :: stackRest, seen =>
      if u ∈ seen then downstreamGo rev f stackRest seen
      else downstreamGo rev f (((dictGet rev u).getD []).reverse ++ stackRest) (seen ++ [u])

/-- The final `seen` set of `_downstream_block_count(task_id, reverse)`, in
insertion order.  The loop pops one element per iteration and pushes each
adjacency list at most once (a node is expanded only when first seen), so
`1 + 2·(total adjacency size)` fuel always suffices. -/
def downstreamSeen (taskId : ℤ) (rev : List (ℤ × List ℤ)) : List ℤ :=
  let fuel := 1 + 2 * rev.foldl (fun a p => a + p.2.length) 0
  downstreamGo rev fuel (((dictGet rev taskId).getD []).reverse) []

/-- `_downstream_block_count(task_id, reverse)` (`return len(seen)`). -/
def downstream_block_count (taskId : ℤ) (rev : List (ℤ × List ℤ)) : ℕ :=
  (downstreamSeen taskId rev).length

end STA

namespace STA

/-! ## Scoring components and `score_tasks`

Quantities touched by `math.log1p` live in `ℝ`; everything else is exact
rational/integer arithmetic.  The `explanation` string of the output dict is
a purely presentational echo of quantities already present in the record and
is not modelled. -/

/-- `_importance`: missing defaults to 5, rescale 1..10 to 0..1. -/
def importanceScore (imp : Option ℤ) : ℚ :=
  ((imp.getD 5 : ℚ) - 1) / 9

/-- `_quickwin(hours, max_hours)` (uses `log1p`, hence `ℝ`). -/
noncomputable def quickwin (hours : Option ℚ) (maxHours : ℚ) : ℝ :=
  let h : ℚ := hours.getD 4
  if maxHours ≤ 0 then 6/10
  else
    let x : ℝ := Real.log (1 + (h : ℝ)) / Real.log (1 + (maxHours : ℝ))
    max 0 (min 1 (1 - x))

/-- `_blocker_score(block_count, cap=8)`. -/
def blocker_score (blockCount : ℕ) (cap : ℕ := 8) : ℚ :=
  max 0 (min 1 ((blockCount : ℚ) / (cap : ℚ)))

/-- `STRATEGY_WEIGHTS` entries. -/
structure Weights where
  urgency : ℚ
  importance : ℚ
  quickwin : ℚ
  blocker : ℚ
  deriving DecidableEq

def DEFAULT_STRATEGY : String := "smart_balance"

/-- The `STRATEGY_WEIGHTS` dict as a lookup function. -/
def STRATEGY_WEIGHTS : String → Option Weights := fun s =>
  if s = "fastest_wins" then Option.some ⟨15/100, 15/100, 60/100, 10/100⟩
  else if s = "high_impact" then Option.some ⟨15/100, 65/100, 5/100, 15/100⟩
  else if s = "deadline_driven" then Option.some ⟨75/100, 20/100, 3/100, 2/100⟩
  else if s = "smart_balance" then Option.some ⟨40/100, 35/100, 15/100, 10/100⟩
  else Option.none

/-- `max([t.estimated_hours or 0 for t in tasks] + [1.0])`: since `max` is
associative and commutative, the maximum of the list with `1.0` appended is
the fold of `max` over the list starting from `1`. -/
def maxHoursOf (tasks : List NormalizedTask) : ℚ :=
  (tasks.map (fun t => t.estimated_hours.getD 0)).foldl max 1

/-- Python 3's `round(x)` (round-half-to-even), idealized over exact reals.
CPython rounds the nearest binary double; the two agree except for values
sitting on a binary representation boundary. -/
noncomputable def pyRoundInt (x : ℝ) : ℤ :=
  if x - ⌊x⌋ < 1/2 then ⌊x⌋
  else if 1/2 < x - ⌊x⌋ then ⌊x⌋ + 1
  else if Even ⌊x⌋ then ⌊x⌋ else ⌊x⌋ + 1

/-- Python `round(y, 2)`. -/
noncomputable def pyRound2 (y : ℝ) : ℚ :=
  (pyRoundInt (y * 100) : ℚ) / 100

/-- The un-penalized weighted factor sum (`base` in the `score_tasks` loop). -/
noncomputable def baseValue (w : Weights) (rev : List (ℤ × List ℤ)) (maxH : ℚ)
    (today : PDate) (t : NormalizedTask) : ℝ :=
  let u := urgency t.due_date today
  let im := importanceScore t.importance
  let qw := quickwin t.estimated_hours maxH
  let downstream := downstream_block_count t.id rev
  let bl := blocker_score downstream
  (w.urgency : ℝ) * (u : ℝ) + (w.importance : ℝ) * (im : ℝ)
    + (w.quickwin : ℝ) * qw + (w.blocker : ℝ) * (bl : ℝ)

/-- `final = base * (1.0 - cycle_penalty)` with
`cycle_penalty = 0.15 if t.id in cycle_set else 0.0`. -/
noncomputable def finalValue (w : Weights) (rev : List (ℤ × List ℤ)) (cycleSet : List ℤ)
    (maxH : ℚ) (today : PDate) (t : NormalizedTask) : ℝ :=
  let cyclePenalty : ℝ := if t.id ∈ cycleSet then 15/100 else 0
  baseValue w rev maxH today t * (1 - cyclePenalty)

/-- One output record of `score_tasks` (the scored dict minus the
presentational `explanation` string). -/
structure ScoredTask where
  id : ℤ
  title : String
  due_date : Option PDate
  estimated_hours : Option ℚ
  importance : ℤ
  dependencies : List ℤ
  dependents : ℕ
  score : ℚ
  deriving DecidableEq

/-- Building one scored record in the `score_tasks` loop. -/
noncomputable def scoreOne (w : Weights) (rev : List (ℤ × List ℤ)) (cycleSet : List ℤ)
    (maxH : ℚ) (today : PDate) (t : NormalizedTask) : ScoredTask :=
  { id := t.id
    title := t.title
    due_date := t.due_date
    estimated_hours := t.estimated_hours
    importance := t.importance.getD 5
    dependencies := t.dependencies
    dependents := downstream_block_count t.id rev
    score := pyRound2 (finalValue w rev cycleSet maxH today t * 100) }

/-- The due-date component of `_sort_key`: the dict stores the due date as
an ISO `YYYY-MM-DD` string (or `None`, replaced by the sentinel
`"9999-12-31"`), and lexicographic order on such strings is exactly ordinal
order of the dates, so we compare ordinals. -/
def dueKeyOrd (due : Option PDate) : ℕ :=
  toOrdinal (due.getD ⟨9999, 12, 31⟩)

/-- `_sort_key` as a binary relation: ascending lexicographic comparison of
`(-score, due-string, -importance)`.  (`x["importance"] or 5` in the source
is the identity: the record's importance is already defaulted and clamped to
1..10, never 0.) -/
def keyLE (a b : ScoredTask) : Prop :=
  -a.score < -b.score ∨
    (-a.score = -b.score ∧
      (dueKeyOrd a.due_date < dueKeyOrd b.due_date ∨
        (dueKeyOrd a.due_date = dueKeyOrd b.due_date ∧ -a.importance ≤ -b.importance)))

instance (a b : ScoredTask) : Decidable (keyLE a b) := by
  unfold keyLE; infer_instance

/-- `keyLE` as a boolean comparator for the (stable) sort. -/
def keyLEb (a b : ScoredTask) : Bool :=
  decide (keyLE a b)

/-- `strategy_key = (strategy or DEFAULT_STRATEGY).strip().lower()`. -/
def resolveStrategyKey (strategy : String) : String :=
  pyLower (pyStrip (if strategy = "" then DEFAULT_STRATEGY else strategy))

/-- `weights = STRATEGY_WEIGHTS.get(strategy_key, STRATEGY_WEIGHTS[DEFAULT_STRATEGY])`. -/
def resolveWeights (strategy : String) : Weights :=
  (STRATEGY_WEIGHTS (resolveStrategyKey strategy)).getD ⟨40/100, 35/100, 15/100, 10/100⟩

/-- The result dict of `score_tasks`. -/
structure ScoreOutput where
  tasks : List ScoredTask
  cycles : List (List ℤ)
  strategy_used : String

/-- `score_tasks(tasks, strategy=..., today=...)`.  Python's stable
`list.sort(key=_sort_key)` is modelled by the stable `List.mergeSort` with
the total preorder `keyLEb`.  The `today=None → date.today()` default is
modelled by the explicit reference date `today`. -/
noncomputable def score_tasks (tasks : List NormalizedTask) (strategy : String)
    (today : PDate) : ScoreOutput :=
  let strategyKey := resolveStrategyKey strategy
  let weights := resolveWeights strategy
  let g := build_graph tasks
  let byId := g.1
  let rev := g.2.2
  let cycles := detect_cycles byId
  let cycleSet := cycleNodes cycles
  let maxH := maxHoursOf tasks
  let scored := tasks.map (scoreOne weights rev cycleSet maxH today)
  ⟨scored.mergeSort keyLEb, cycles, strategyKey⟩

end STA

/-! ## Supporting calendar lemmas

`nextDay` advances `toOrdinal` by exactly one on valid dates, so the
ordinal-distance fuel of `workingDaysGo` reproduces the `while cursor < due`
loop of the source faithfully. -/

namespace STA

lemma daysInMonth_ge (y m : ℕ) : 28 ≤ daysInMonth y m := by
  unfold daysInMonth; split_ifs <;> omega

lemma isLeap_iff (y : ℕ) : isLeap y = true ↔ (4 ∣ y ∧ ((100 ∣ y) → (400 ∣ y))) := by
  unfold isLeap
  simp [Nat.dvd_iff_mod_eq_zero]
  tauto

lemma isLeap_iff_not (y : ℕ) : isLeap y = false ↔ ¬(4 ∣ y ∧ ((100 ∣ y) → (400 ∣ y))) := by
  rw [← isLeap_iff]
  cases isLeap y <;> simp

lemma daysBeforeYear_succ (y : ℕ) (hy : 1 ≤ y) :
    daysBeforeYear (y + 1) = daysBeforeYear y + 365 + (if isLeap y then 1 else 0) := by
  obtain ⟨a, rfl⟩ : ∃ a, y = a + 1 := ⟨y - 1, by omega⟩
  unfold daysBeforeYear
  simp only [Nat.add_sub_cancel]
  have ha : a / 100 ≤ a / 4 := Nat.div_le_div_left (by norm_num) (by norm_num)
  rw [Nat.succ_div a 4, Nat.succ_div a 100, Nat.succ_div a 400]
  by_cases h400 : (400 : ℕ) ∣ (a + 1)
  · have h100 : (100 : ℕ) ∣ (a + 1) := dvd_trans (by norm_num) h400
    have h4 : (4 : ℕ) ∣ (a + 1) := dvd_trans (by norm_num) h400
    have hl : isLeap (a + 1) = true := (isLeap_iff _).2 ⟨h4, fun _ => h400⟩
    simp [h4, h100, h400, hl]
    omega
  · by_cases h100 : (100 : ℕ) ∣ (a + 1)
    · have h4 : (4 : ℕ) ∣ (a + 1) := dvd_trans (by norm_num) h100
      have hl : isLeap (a + 1) = false := (isLeap_iff_not _).2 (by tauto)
      simp [h4, h100, h400, hl]
      omega
    · by_cases h4 : (4 : ℕ) ∣ (a + 1)
      · have hl : isLeap (a + 1) = true := (isLeap_iff _).2 ⟨h4, by tauto⟩
        simp [h4, h100, h400, hl]
        omega
      · have hl : isLeap (a + 1) = false := (isLeap_iff_not _).2 (by tauto)
        simp [h4, h100, h400, hl]
        omega

lemma daysBeforeMonth_succ (y m : ℕ) (h1 : 1 ≤ m) (h11 : m ≤ 11) :
    daysBeforeMonth y (m + 1) = daysBeforeMonth y m + daysInMonth y m := by
  interval_cases m <;>
    simp [daysBeforeMonth, daysBeforeMonthTable, daysInMonth] <;>
    cases h : isLeap y <;> simp [h]

lemma toOrdinal_nextDay (d : PDate) (h : d.Valid) :
    toOrdinal (nextDay d) = toOrdinal d + 1 := by
  obtain ⟨hy, hm1, hm12, hd1, hdm⟩ := h
  have e2 : toOrdinal d
      = daysBeforeYear d.year + daysBeforeMonth d.year d.month + d.day := rfl
  unfold nextDay
  split_ifs with hday hmon
  · have e1 : toOrdinal ⟨d.year, d.month, d.day + 1⟩
        = daysBeforeYear d.year + daysBeforeMonth d.year d.month + (d.day + 1) := rfl
    rw [e1, e2]
    omega
  · have hdeq : d.day = daysInMonth d.year d.month := by omega
    have hstep := daysBeforeMonth_succ d.year d.month hm1 (by omega)
    have e1 : toOrdinal ⟨d.year, d.month + 1, 1⟩
        = daysBeforeYear d.year + daysBeforeMonth d.year (d.month + 1) + 1 := rfl
    rw [e1, e2, hstep]
    omega
  · have hm : d.month = 12 := by omega
    have h31 : daysInMonth d.year 12 = 31 := by simp [daysInMonth]
    have hdeq : d.day = 31 := by rw [hm] at hdm hday; omega
    have e1 : toOrdinal ⟨d.year + 1, 1, 1⟩
        = daysBeforeYear (d.year + 1) + daysBeforeMonth (d.year + 1) 1 + 1 := rfl
    have e3 : daysBeforeMonth (d.year + 1) 1 = 0 := by
      simp [daysBeforeMonth, daysBeforeMonthTable]
    have e4 : daysBeforeMonth d.year 12 = 334 + (if isLeap d.year then 1 else 0) := by
      simp [daysBeforeMonth, daysBeforeMonthTable]
    rw [e1, e2, hm, hdeq, e3, e4, daysBeforeYear_succ d.year hy]
    split_ifs <;> omega

lemma nextDay_valid (d : PDate) (h : d.Valid) : (nextDay d).Valid := by
  obtain ⟨hy, hm1, hm12, hd1, hdm⟩ := h
  have h28 := daysInMonth_ge d.year (d.month + 1)
  have h28' := daysInMonth_ge (d.year + 1) 1
  unfold nextDay
  split_ifs with hday hmon
  · exact ⟨hy, hm1, hm12,
      by show 1 ≤ d.day + 1; omega,
      by show d.day + 1 ≤ daysInMonth d.year d.month; omega⟩
  · exact ⟨hy,
      by show 1 ≤ d.month + 1; omega,
      by show d.month + 1 ≤ 12; omega,
      by show (1 : ℕ) ≤ 1; omega,
      by show 1 ≤ daysInMonth d.year (d.month + 1); omega⟩
  · exact ⟨by show 1 ≤ d.year + 1; omega,
      by show (1 : ℕ) ≤ 1; omega,
      by show (1 : ℕ) ≤ 12; omega,
      by show (1 : ℕ) ≤ 1; omega,
      by show 1 ≤ daysInMonth (d.year + 1) 1; omega⟩

end STA

namespace STA

/-- The list of `n` successive calendar days starting at `d` — the days the
`_working_days_until` loop inspects. -/
def walkDays : PDate → ℕ → List PDate
  | _, 0 => []
  | d, n + 1 => d :: walkDays (nextDay d) n

/-- The claim-side working-day predicate, spelled as in the specification:
not a Saturday/Sunday and not one of the six fixed holidays. -/
def isWorkingDaySpec (c : PDate) : Bool :=
  decide (¬ (pweekday c = 5 ∨ pweekday c = 6) ∧ (c.month, c.day) ∉ INDIA_HOLIDAYS_FIXED)

lemma isWorkingDaySpec_eq (c : PDate) : isWorkingDaySpec c = !isNonWorkingDay c := by
  have h7 : pweekday c < 7 := Nat.mod_lt _ (by norm_num)
  have h5 : (5 ≤ pweekday c) ↔ (pweekday c = 5 ∨ pweekday c = 6) := by omega
  unfold isWorkingDaySpec isNonWorkingDay
  rw [← decide_not, decide_eq_decide]
  tauto

/-- The loop accumulator of `_working_days_until` counts exactly the
working days among the inspected days. -/
lemma workingDaysGo_eq_countP (n : ℕ) (d : PDate) :
    workingDaysGo n d = (walkDays d n).countP isWorkingDaySpec := by
  induction n generalizing d with
  | zero => simp [workingDaysGo, walkDays]
  | succ n ih =>
      rw [workingDaysGo, walkDays, List.countP_cons, ih (nextDay d),
        isWorkingDaySpec_eq]
      cases h : isNonWorkingDay d
      · simp [h]
        omega
      · simp [h]

/-- On a valid start date, the `n` inspected days are precisely the `n`
consecutive calendar days starting at `d` (stated via their ordinals). -/
lemma walkDays_map_toOrdinal (n : ℕ) (d : PDate) (h : d.Valid) :
    (walkDays d n).map toOrdinal = List.range' (toOrdinal d) n := by
  induction n generalizing d with
  | zero => simp [walkDays]
  | succ n ih =>
      rw [walkDays, List.map_cons, List.range'_succ,
        ih (nextDay d) (nextDay_valid d h), toOrdinal_nextDay d h]

end STA

namespace STA

/-- **C1.** For every (valid) due date and reference date: the urgency
factor is 0.25 when the due date is absent; 1.0 when the due date is
strictly before the reference date; and otherwise `1/(1 + w/5)`, where `w`
counts, over the calendar days from the reference date up to (but not
including) the due date (exactly the consecutive-ordinal walk, first
conjunct), those days that are neither a Saturday/Sunday nor one of the six
fixed holidays.  In particular `w = 0` gives 1.0 and `w = 5` gives 0.5. -/
theorem urgency_spec (due today : PDate) (_hd : due.Valid) (ht : today.Valid) :
    urgency Option.none today = 1/4 ∧
    (pdateLt due today = true → urgency (Option.some due) today = 1) ∧
    (pdateLt due today = false →
      (walkDays today (toOrdinal due - toOrdinal today)).map toOrdinal
          = List.range' (toOrdinal today) (toOrdinal due - toOrdinal today) ∧
      urgency (Option.some due) today
        = 1 / (1 + ((walkDays today (toOrdinal due - toOrdinal today)).countP
            isWorkingDaySpec : ℚ) / 5) ∧
      ((walkDays today (toOrdinal due - toOrdinal today)).countP isWorkingDaySpec = 0 →
        urgency (Option.some due) today = 1) ∧
      ((walkDays today (toOrdinal due - toOrdinal today)).countP isWorkingDaySpec = 5 →
        urgency (Option.some due) today = 1/2)) := by
  refine ⟨rfl, ?_, ?_⟩
  · intro h
    simp [urgency, workingDaysUntil, h]
  · intro h
    have hcount := workingDaysGo_eq_countP (toOrdinal due - toOrdinal today) today
    have hval : urgency (Option.some due) today
        = 1 / (1 + ((walkDays today (toOrdinal due - toOrdinal today)).countP
            isWorkingDaySpec : ℚ) / 5) := by
      simp only [urgency, workingDaysUntil, h, if_false, Bool.false_eq_true]
      rw [← hcount]
      have hnonneg : ¬ ((workingDaysGo (toOrdinal due - toOrdinal today) today : ℤ) < 0) := by
        simp
      simp only [hnonneg, if_false]
      push_cast
      ring_nf
    refine ⟨walkDays_map_toOrdinal _ today ht, hval, ?_, ?_⟩
    · intro h0
      rw [hval, h0]
      norm_num
    · intro h5
      rw [hval, h5]
      norm_num

/-- Witness for `urgency_spec` at the concrete dates 2025-11-05 (reference)
and 2025-11-07 (due): both are valid, the due date is not before the
reference date, and the theorem's formula applies. -/
theorem urgency_spec_witness :
    (⟨2025, 11, 7⟩ : PDate).Valid ∧ (⟨2025, 11, 5⟩ : PDate).Valid ∧
    urgency (Option.some ⟨2025, 11, 7⟩) ⟨2025, 11, 5⟩
      = 1 / (1 + ((walkDays ⟨2025, 11, 5⟩
          (toOrdinal ⟨2025, 11, 7⟩ - toOrdinal ⟨2025, 11, 5⟩)).countP
            isWorkingDaySpec : ℚ) / 5) :=
  ⟨by decide, by decide,
    ((urgency_spec ⟨2025, 11, 7⟩ ⟨2025, 11, 5⟩ (by decide) (by decide)).2.2
      (by decide)).2.1⟩

end STA

namespace STA

/-- **C2.** For every batch and strategy: a task whose id lies in the cycle
set gets final score `base * 0.85`, applied exactly once no matter how many
cycles contain the id (the penalty is a single multiplicative factor chosen
by membership, never stacked); a task in no cycle keeps `final = base`; the
emitted record's `score` field is exactly the rounding of `final * 100`;
and the output records are a permutation of one such record per input
task. -/
theorem cycle_penalty_spec (tasks : List NormalizedTask) (strategy : String)
    (today : PDate) (t : NormalizedTask) (_ht : t ∈ tasks) :
    (t.id ∈ cycleNodes (detect_cycles (build_graph tasks).1) →
      finalValue (resolveWeights strategy) (build_graph tasks).2.2
          (cycleNodes (detect_cycles (build_graph tasks).1)) (maxHoursOf tasks) today t
        = baseValue (resolveWeights strategy) (build_graph tasks).2.2
            (maxHoursOf tasks) today t * (85/100)) ∧
    (t.id ∉ cycleNodes (detect_cycles (build_graph tasks).1) →
      finalValue (resolveWeights strategy) (build_graph tasks).2.2
          (cycleNodes (detect_cycles (build_graph tasks).1)) (maxHoursOf tasks) today t
        = baseValue (resolveWeights strategy) (build_graph tasks).2.2
            (maxHoursOf tasks) today t) ∧
    (scoreOne (resolveWeights strategy) (build_graph tasks).2.2
        (cycleNodes (detect_cycles (build_graph tasks).1)) (maxHoursOf tasks) today t).score
      = pyRound2 (finalValue (resolveWeights strategy) (build_graph tasks).2.2
          (cycleNodes (detect_cycles (build_graph tasks).1)) (maxHoursOf tasks) today t
            * 100) ∧
    (score_tasks tasks strategy today).tasks.Perm
      (tasks.map (scoreOne (resolveWeights strategy) (build_graph tasks).2.2
        (cycleNodes (detect_cycles (build_graph tasks).1)) (maxHoursOf tasks) today)) := by
  refine ⟨?_, ?_, rfl, ?_⟩
  · intro h
    simp only [finalValue, h, if_true]
    norm_num
  · intro h
    simp [finalValue, h]
  · exact List.mergeSort_perm _ _

/-- Witness for `cycle_penalty_spec` on the two-task cyclic batch
`1 → [2]`, `2 → [1]`: task 1 is in the batch and its id is in the cycle
set, so the 0.85 factor applies to it. -/
theorem cycle_penalty_spec_witness :
    (⟨1, "a", Option.none, Option.none, Option.none, [2]⟩ : NormalizedTask) ∈
      [(⟨1, "a", Option.none, Option.none, Option.none, [2]⟩ : NormalizedTask),
       ⟨2, "b", Option.none, Option.none, Option.none, [1]⟩] ∧
    finalValue (resolveWeights "smart_balance")
        (build_graph [(⟨1, "a", Option.none, Option.none, Option.none, [2]⟩ : NormalizedTask),
          ⟨2, "b", Option.none, Option.none, Option.none, [1]⟩]).2.2
        (cycleNodes (detect_cycles (build_graph
          [(⟨1, "a", Option.none, Option.none, Option.none, [2]⟩ : NormalizedTask),
           ⟨2, "b", Option.none, Option.none, Option.none, [1]⟩]).1))
        (maxHoursOf [(⟨1, "a", Option.none, Option.none, Option.none, [2]⟩ : NormalizedTask),
          ⟨2, "b", Option.none, Option.none, Option.none, [1]⟩])
        ⟨2025, 10, 1⟩
        ⟨1, "a", Option.none, Option.none, Option.none, [2]⟩
      = baseValue (resolveWeights "smart_balance")
          (build_graph [(⟨1, "a", Option.none, Option.none, Option.none, [2]⟩ : NormalizedTask),
            ⟨2, "b", Option.none, Option.none, Option.none, [1]⟩]).2.2
          (maxHoursOf [(⟨1, "a", Option.none, Option.none, Option.none, [2]⟩ : NormalizedTask),
            ⟨2, "b", Option.none, Option.none, Option.none, [1]⟩])
          ⟨2025, 10, 1⟩
          ⟨1, "a", Option.none, Option.none, Option.none, [2]⟩ * (85/100) :=
  ⟨by decide,
    (cycle_penalty_spec
      [⟨1, "a", Option.none, Option.none, Option.none, [2]⟩,
       ⟨2, "b", Option.none, Option.none, Option.none, [1]⟩]
      "smart_balance" ⟨2025, 10, 1⟩
      ⟨1, "a", Option.none, Option.none, Option.none, [2]⟩ (by decide)).1
      (by decide)⟩

end STA

namespace STA

/-- The normalizer emits exactly one task per raw record. -/
lemma normalizeGo_fst_length (idx : ℕ) (raw : List RawTask) :
    (normalizeGo idx raw).1.length = raw.length := by
  induction raw generalizing idx with
  | nil => rfl
  | cons t rest ih => simp [normalizeGo, ih]

/-- **C4.** Scoring emits exactly one record per task and normalization
exactly one task per raw record: no input is dropped or duplicated, even
when two records normalize to the same id. -/
theorem length_preservation_spec (raw : List RawTask) (strategy : String) (today : PDate) :
    (∀ tasks : List NormalizedTask,
      (score_tasks tasks strategy today).tasks.length = tasks.length) ∧
    (normalize_tasks raw).1.length = raw.length ∧
    (score_tasks (normalize_tasks raw).1 strategy today).tasks.length = raw.length := by
  have hscore : ∀ tasks : List NormalizedTask,
      (score_tasks tasks strategy today).tasks.length = tasks.length := by
    intro tasks
    show ((tasks.map _).mergeSort keyLEb).length = tasks.length
    rw [List.length_mergeSort, List.length_map]
  have hnorm : (normalize_tasks raw).1.length = raw.length :=
    normalizeGo_fst_length 0 raw
  exact ⟨hscore, hnorm, by rw [hscore, hnorm]⟩

end STA

namespace STA

/-- **C7.** On the two-task batch `1 → [2]`, `2 → [1]`, `detect_cycles`
reports at least one cycle containing both ids 1 and 2; on the two-task
batch with no edges it reports no cycle at all. -/
theorem detect_cycles_scenario_spec :
    (∃ c ∈ detect_cycles (tasksById
        [⟨1, "a", Option.none, Option.none, Option.none, [2]⟩,
         ⟨2, "b", Option.none, Option.none, Option.none, [1]⟩]),
      (1 : ℤ) ∈ c ∧ (2 : ℤ) ∈ c) ∧
    detect_cycles (tasksById
        [⟨1, "a", Option.none, Option.none, Option.none, []⟩,
         ⟨2, "b", Option.none, Option.none, Option.none, []⟩]) = [] := by
  decide

/-- **C10.** In the two-cycle `1 → [2]`, `2 → [1]`, each task is a member of
its own transitive-dependent set, so `_downstream_block_count` returns 2 for
both tasks, and the resulting blocker factor is strictly larger than that of
a task with no dependents. -/
theorem downstream_counts_self_in_cycle_spec :
    downstream_block_count 1 (build_graph
        [⟨1, "a", Option.none, Option.none, Option.none, [2]⟩,
         ⟨2, "b", Option.none, Option.none, Option.none, [1]⟩]).2.2 = 2 ∧
    downstream_block_count 2 (build_graph
        [⟨1, "a", Option.none, Option.none, Option.none, [2]⟩,
         ⟨2, "b", Option.none, Option.none, Option.none, [1]⟩]).2.2 = 2 ∧
    (1 : ℤ) ∈ downstreamSeen 1 (build_graph
        [⟨1, "a", Option.none, Option.none, Option.none, [2]⟩,
         ⟨2, "b", Option.none, Option.none, Option.none, [1]⟩]).2.2 ∧
    (2 : ℤ) ∈ downstreamSeen 2 (build_graph
        [⟨1, "a", Option.none, Option.none, Option.none, [2]⟩,
         ⟨2, "b", Option.none, Option.none, Option.none, [1]⟩]).2.2 ∧
    blocker_score 0 < blocker_score (downstream_block_count 1 (build_graph
        [⟨1, "a", Option.none, Option.none, Option.none, [2]⟩,
         ⟨2, "b", Option.none, Option.none, Option.none, [1]⟩]).2.2) := by
  have h1 : downstream_block_count 1 (build_graph
      [⟨1, "a", Option.none, Option.none, Option.none, [2]⟩,
       ⟨2, "b", Option.none, Option.none, Option.none, [1]⟩]).2.2 = 2 := by decide
  refine ⟨h1, by decide, by decide, by decide, ?_⟩
  rw [h1]
  unfold blocker_score
  norm_num

end STA

namespace STA

/-- Substring test on character lists (used to state "warning contains the
substring ..."). -/
def listContainsSub : List Char → List Char → Bool
  | [], pat => pat.isEmpty
  | c :: rest, pat => pat.isPrefixOf (c :: rest) || listContainsSub rest pat

/-- `pat` occurs as a contiguous substring of `s`. -/
def strContainsSub (s pat : String) : Bool :=
  listContainsSub s.toList pat.toList

/-- **C8.** The malformed record
`{"id": "100", "due_date": "Tomorrow", "estimated_hours": -5,
"importance": "High", "dependencies": "None"}` normalizes (without raising —
the normalizer is a total function by construction) to id 100, all of
due date / hours / importance absent, empty dependency list and the default
title, and one of the emitted warnings contains `"invalid due_date"`. -/
theorem normalize_malformed_spec :
    (normalize_tasks
        [{ id := Option.some (.str "100"), due_date := Option.some (.str "Tomorrow"),
           estimated_hours := Option.some (.int (-5)),
           importance := Option.some (.str "High"),
           dependencies := Option.some (.str "None") }]).1
      = [⟨100, "Untitled Task 100", Option.none, Option.none, Option.none, []⟩] ∧
    ∃ w ∈ (normalize_tasks
        [{ id := Option.some (.str "100"), due_date := Option.some (.str "Tomorrow"),
           estimated_hours := Option.some (.int (-5)),
           importance := Option.some (.str "High"),
           dependencies := Option.some (.str "None") }]).2,
      strContainsSub w "invalid due_date" = true := by
  decide

end STA

namespace STA

/-- `normalize_tasks` preserves the record count (stated for the public
entry point). -/
lemma normalize_tasks_fst_length (raw : List RawTask) :
    (normalize_tasks raw).1.length = raw.length :=
  normalizeGo_fst_length 0 raw

/-- The id produced by one normalizer iteration. -/
lemma normalizeOne_id (idx : ℕ) (r : RawTask) :
    (normalizeOne idx r).1.id
      = match r.id with
        | Option.none => (idx : ℤ) + 1
        | Option.some v => (pyInt v).getD ((idx : ℤ) + 1) := by
  cases hr : r.id with
  | none => simp [normalizeOne, hr]
  | some v =>
      cases hv : pyInt v with
      | none => simp [normalizeOne, hr, hv]
      | some n => simp [normalizeOne, hr, hv]

/-- Unfolding equation for one step of the normalizer loop. -/
lemma normalizeGo_cons (idx : ℕ) (t : RawTask) (rest : List RawTask) :
    normalizeGo idx (t :: rest)
      = ((normalizeOne idx t).1 :: (normalizeGo (idx + 1) rest).1,
         (normalizeOne idx t).2 ++ (normalizeGo (idx + 1) rest).2) := rfl

/-- Position/value characterization of normalized ids, offset by the start
index of the loop. -/
lemma normalizeGo_id (idx : ℕ) (raw : List RawTask) (i : ℕ) :
    ((normalizeGo idx raw).1[i]?).map (·.id)
      = (raw[i]?).map (fun r =>
          match r.id with
          | Option.none => ((idx + i : ℕ) : ℤ) + 1
          | Option.some v => (pyInt v).getD (((idx + i : ℕ) : ℤ) + 1)) := by
  induction raw generalizing idx i with
  | nil => simp [normalizeGo]
  | cons r rest ih =>
      cases i with
      | zero =>
          rw [normalizeGo_cons]
          simp only [List.getElem?_cons_zero, Option.map_some']
          rw [normalizeOne_id idx r]
          cases hr : r.id with
          | none => simp
          | some v => cases hv : pyInt v <;> simp [hv]
      | succ j =>
          rw [normalizeGo_cons]
          simp only [List.getElem?_cons_succ]
          rw [ih (idx + 1) j, show idx + 1 + j = idx + (j + 1) from by omega]

/-- **C9 (amended).** After normalization, a task's id is an integer
determined by its own record and position alone: the coerced raw id when
coercion succeeds, otherwise the 1-based input position (also used when the
key is absent).  Uniqueness within the batch is *not* guaranteed. -/
theorem normalize_ids_amended (raw : List RawTask) (i : ℕ) :
    ((normalize_tasks raw).1[i]?).map (·.id)
      = (raw[i]?).map (fun r =>
          match r.id with
          | Option.none => (i : ℤ) + 1
          | Option.some v => (pyInt v).getD ((i : ℤ) + 1)) := by
  have h := normalizeGo_id 0 raw i
  simpa using h

/-- **C9 (counterexample).** Two records that both carry raw id 1 normalize
to two tasks with the *same* id 1 (the id list is not duplicate-free):
`normalize_tasks` does not enforce id uniqueness within a batch. -/
theorem normalize_duplicate_ids_counterexample :
    ((normalize_tasks [{ id := Option.some (.int 1) },
        { id := Option.some (.int 1) }]).1.map (·.id)) = [1, 1] ∧
    ¬ ((normalize_tasks [{ id := Option.some (.int 1) },
        { id := Option.some (.int 1) }]).1.map (·.id)).Nodup := by
  refine ⟨by decide, ?_⟩
  rw [show ((normalize_tasks [({ id := Option.some (.int 1) } : RawTask),
      { id := Option.some (.int 1) }]).1.map (·.id)) = [1, 1] from by decide]
  decide

end STA

namespace STA

/-- The fold underlying `max(list + [1.0])` never goes below its seed. -/
lemma le_foldl_max (l : List ℚ) (a : ℚ) : a ≤ l.foldl max a := by
  induction l generalizing a with
  | nil => exact le_refl a
  | cons x xs ih => exact le_trans (le_max_left a x) (ih (max a x))

/-- The batch-wide `max_hours` of `score_tasks` is always at least 1. -/
lemma one_le_maxHoursOf (tasks : List NormalizedTask) : 1 ≤ maxHoursOf tasks :=
  le_foldl_max _ 1

/-- **C5.** For every task of a batch: the batch `max_hours` is ≥ 1, so the
degenerate `max_hours ≤ 0` branch (constant 0.6) is never taken when
`_quickwin` is called from `score_tasks`; the factor equals
`max(0, min(1, 1 − ln(1+h)/ln(1+max_hours)))` with `h` the task's estimated
hours or 4.0 when absent; and the factor lies in `[0, 1]`. -/
theorem quickwin_spec (tasks : List NormalizedTask) (t : NormalizedTask)
    (_ht : t ∈ tasks) :
    1 ≤ maxHoursOf tasks ∧
    quickwin t.estimated_hours (maxHoursOf tasks)
      = max 0 (min 1 (1 - Real.log (1 + ((t.estimated_hours.getD 4 : ℚ) : ℝ))
          / Real.log (1 + ((maxHoursOf tasks : ℚ) : ℝ)))) ∧
    0 ≤ quickwin t.estimated_hours (maxHoursOf tasks) ∧
    quickwin t.estimated_hours (maxHoursOf tasks) ≤ 1 := by
  have h1 : 1 ≤ maxHoursOf tasks := one_le_maxHoursOf tasks
  have hpos : ¬ (maxHoursOf tasks ≤ 0) := by
    intro h
    linarith
  have heq : quickwin t.estimated_hours (maxHoursOf tasks)
      = max 0 (min 1 (1 - Real.log (1 + ((t.estimated_hours.getD 4 : ℚ) : ℝ))
          / Real.log (1 + ((maxHoursOf tasks : ℚ) : ℝ)))) := by
    unfold quickwin
    rw [if_neg hpos]
  refine ⟨h1, heq, ?_, ?_⟩
  · rw [heq]
    exact le_max_left 0 _
  · rw [heq]
    exact max_le (by norm_num) (min_le_left 1 _)

/-- Witness for `quickwin_spec`: a concrete one-task batch with 2 estimated
hours; its quick-win factor is within `[0, 1]`. -/
theorem quickwin_spec_witness :
    (⟨1, "a", Option.none, Option.some 2, Option.none, []⟩ : NormalizedTask) ∈
      [(⟨1, "a", Option.none, Option.some 2, Option.none, []⟩ : NormalizedTask)] ∧
    quickwin (Option.some 2)
        (maxHoursOf [(⟨1, "a", Option.none, Option.some 2, Option.none, []⟩ : NormalizedTask)])
      ≤ 1 :=
  ⟨by decide,
    (quickwin_spec [⟨1, "a", Option.none, Option.some 2, Option.none, []⟩]
      ⟨1, "a", Option.none, Option.some 2, Option.none, []⟩ (by decide)).2.2.2⟩

end STA

namespace STA

/-- `_working_days_until` is non-negative when the due date is not overdue. -/
lemma workingDaysUntil_nonneg (d today : PDate) (h : pdateLt d today = false) :
    0 ≤ workingDaysUntil d today := by
  unfold workingDaysUntil
  rw [h]
  simp

/-- Core monotonicity of the urgency decay: fewer working days give an
urgency at least as large. -/
lemma urgency_mono (d1 d2 today : PDate)
    (h1 : pdateLt d1 today = false) (h2 : pdateLt d2 today = false)
    (hle : workingDaysUntil d1 today ≤ workingDaysUntil d2 today) :
    urgency (Option.some d2) today ≤ urgency (Option.some d1) today := by
  have hw1 : 0 ≤ workingDaysUntil d1 today := workingDaysUntil_nonneg d1 today h1
  have hw2 : 0 ≤ workingDaysUntil d2 today := workingDaysUntil_nonneg d2 today h2
  simp only [urgency]
  rw [if_neg (by omega), if_neg (by omega)]
  have hq1 : (0 : ℚ) ≤ (workingDaysUntil d1 today : ℚ) := by exact_mod_cast hw1
  have hq2 : (0 : ℚ) ≤ (workingDaysUntil d2 today : ℚ) := by exact_mod_cast hw2
  have hqle : (workingDaysUntil d1 today : ℚ) ≤ (workingDaysUntil d2 today : ℚ) := by
    exact_mod_cast hle
  have hd1 : (0 : ℚ) < 1 + (workingDaysUntil d1 today : ℚ) / 5 := by linarith
  have hd2 : (0 : ℚ) < 1 + (workingDaysUntil d2 today : ℚ) / 5 := by linarith
  rw [div_le_div_iff₀ hd2 hd1]
  linarith

/-- **C6.** For two tasks identical in id, importance and estimated hours,
both due on or after the reference date, evaluated in the same scoring
context: if the first has strictly fewer working days until its due date,
its urgency factor is ≥ that of the second, and — for any weight vector
with non-negative urgency weight — its unrounded final score is ≥ as
well. -/
theorem score_monotone_in_working_days_spec
    (w : Weights) (rev : List (ℤ × List ℤ)) (cycleSet : List ℤ) (maxH : ℚ)
    (today : PDate) (t1 t2 : NormalizedTask) (d1 d2 : PDate)
    (hw : 0 ≤ w.urgency)
    (hid : t1.id = t2.id) (himp : t1.importance = t2.importance)
    (hhrs : t1.estimated_hours = t2.estimated_hours)
    (hdd1 : t1.due_date = Option.some d1) (hdd2 : t2.due_date = Option.some d2)
    (h1 : pdateLt d1 today = false) (h2 : pdateLt d2 today = false)
    (hlt : workingDaysUntil d1 today < workingDaysUntil d2 today) :
    urgency t2.due_date today ≤ urgency t1.due_date today ∧
    finalValue w rev cycleSet maxH today t2 ≤ finalValue w rev cycleSet maxH today t1 := by
  have hu : urgency t2.due_date today ≤ urgency t1.due_date today := by
    rw [hdd1, hdd2]
    exact urgency_mono d1 d2 today h1 h2 (le_of_lt hlt)
  refine ⟨hu, ?_⟩
  have hbase : baseValue w rev maxH today t2 ≤ baseValue w rev maxH today t1 := by
    unfold baseValue
    rw [himp, hhrs, hid]
    dsimp only
    have hcast : ((urgency t2.due_date today : ℚ) : ℝ)
        ≤ ((urgency t1.due_date today : ℚ) : ℝ) := by exact_mod_cast hu
    have hwc : (0 : ℝ) ≤ (w.urgency : ℚ) := by exact_mod_cast hw
    have := mul_le_mul_of_nonneg_left hcast hwc
    linarith
  unfold finalValue
  rw [hid]
  have hpen : (0 : ℝ) ≤ 1 - (if t2.id ∈ cycleSet then (15/100 : ℝ) else 0) := by
    split_ifs <;> norm_num
  exact mul_le_mul_of_nonneg_right hbase hpen

/-- Witness for `score_monotone_in_working_days_spec`: two copies of a task
due 2025-10-03 vs 2025-11-07 from reference date 2025-10-01 (1 working day
vs 27), under the default strategy weights. -/
theorem score_monotone_in_working_days_spec_witness :
    (0 : ℚ) ≤ (resolveWeights "smart_balance").urgency ∧
    pdateLt ⟨2025, 10, 3⟩ ⟨2025, 10, 1⟩ = false ∧
    pdateLt ⟨2025, 11, 7⟩ ⟨2025, 10, 1⟩ = false ∧
    workingDaysUntil ⟨2025, 10, 3⟩ ⟨2025, 10, 1⟩ < workingDaysUntil ⟨2025, 11, 7⟩ ⟨2025, 10, 1⟩ ∧
    urgency (Option.some ⟨2025, 11, 7⟩) ⟨2025, 10, 1⟩
      ≤ urgency (Option.some ⟨2025, 10, 3⟩) ⟨2025, 10, 1⟩ :=
  ⟨by rw [show (resolveWeights "smart_balance").urgency = 40/100 from rfl]; norm_num,
    by decide, by decide, by decide,
    (score_monotone_in_working_days_spec (resolveWeights "smart_balance") [] [] 1
      ⟨2025, 10, 1⟩
      ⟨1, "a", Option.some ⟨2025, 10, 3⟩, Option.none, Option.none, []⟩
      ⟨1, "a", Option.some ⟨2025, 11, 7⟩, Option.none, Option.none, []⟩
      ⟨2025, 10, 3⟩ ⟨2025, 11, 7⟩
      (by rw [show (resolveWeights "smart_balance").urgency = 40/100 from rfl]; norm_num)
      rfl rfl rfl rfl rfl (by decide) (by decide) (by decide)).1⟩

end STA

namespace STA

/-- The sort-key comparison is transitive. -/
lemma keyLE_trans (a b c : ScoredTask) (h1 : keyLE a b) (h2 : keyLE b c) : keyLE a c := by
  unfold keyLE at *
  rcases h1 with h1 | ⟨e1, h1⟩ <;> rcases h2 with h2 | ⟨e2, h2⟩
  · exact Or.inl (lt_trans h1 h2)
  · exact Or.inl (lt_of_lt_of_le h1 (le_of_eq e2))
  · exact Or.inl (lt_of_le_of_lt (le_of_eq e1) h2)
  · refine Or.inr ⟨e1.trans e2, ?_⟩
    rcases h1 with h1 | ⟨f1, h1⟩ <;> rcases h2 with h2 | ⟨f2, h2⟩
    · exact Or.inl (by omega)
    · exact Or.inl (by omega)
    · exact Or.inl (by omega)
    · exact Or.inr ⟨f1.trans f2, le_trans h1 h2⟩

/-- The sort-key comparison is total. -/
lemma keyLE_total (a b : ScoredTask) : keyLE a b ∨ keyLE b a := by
  unfold keyLE
  rcases lt_trichotomy (-a.score) (-b.score) with h | h | h
  · exact Or.inl (Or.inl h)
  · rcases Nat.lt_trichotomy (dueKeyOrd a.due_date) (dueKeyOrd b.due_date) with g | g | g
    · exact Or.inl (Or.inr ⟨h, Or.inl g⟩)
    · rcases le_total (-a.importance) (-b.importance) with k | k
      · exact Or.inl (Or.inr ⟨h, Or.inr ⟨g, k⟩⟩)
      · exact Or.inr (Or.inr ⟨h.symm, Or.inr ⟨g.symm, k⟩⟩)
    · exact Or.inr (Or.inr ⟨h.symm, Or.inl g⟩)
  · exact Or.inr (Or.inl h)

/-- Boolean transitivity, as `mergeSort`'s lemmas expect. -/
lemma keyLEb_trans (a b c : ScoredTask) (h1 : keyLEb a b) (h2 : keyLEb b c) :
    keyLEb a c := by
  simp only [keyLEb, decide_eq_true_eq] at *
  exact keyLE_trans a b c h1 h2

/-- Boolean totality, as `mergeSort`'s lemmas expect. -/
lemma keyLEb_total (a b : ScoredTask) : keyLEb a b || keyLEb b a := by
  rcases keyLE_total a b with h | h <;> simp [keyLEb, h]

/-- **C3 (amended).** The output of `score_tasks` is sorted by descending
score, then ascending due date with an absent due date replaced by the
sentinel date 9999-12-31 (hence after every task dated strictly before
9999-12-31, but tying with a task dated exactly 9999-12-31), then descending
importance; the sort is stable (any comparator-ordered pair of records keeps
its relative record order) and, being a pure function of the input and
reference date, deterministic. -/
theorem sort_order_amended (tasks : List NormalizedTask) (strategy : String) (today : PDate) :
    (score_tasks tasks strategy today).tasks.Pairwise keyLE ∧
    (∀ a b : ScoredTask,
      [a, b].Sublist (tasks.map (scoreOne (resolveWeights strategy)
          (build_graph tasks).2.2 (cycleNodes (detect_cycles (build_graph tasks).1))
          (maxHoursOf tasks) today)) →
      keyLEb a b = true →
      [a, b].Sublist (score_tasks tasks strategy today).tasks) ∧
    dueKeyOrd Option.none = toOrdinal ⟨9999, 12, 31⟩ := by
  refine ⟨?_, ?_, rfl⟩
  · have h := List.sorted_mergeSort keyLEb_trans keyLEb_total
      (tasks.map (scoreOne (resolveWeights strategy)
        (build_graph tasks).2.2 (cycleNodes (detect_cycles (build_graph tasks).1))
        (maxHoursOf tasks) today))
    exact h.imp (fun hb => by simpa [keyLEb, decide_eq_true_eq] using hb)
  · intro a b hsub hab
    exact List.pair_sublist_mergeSort keyLEb_trans keyLEb_total hab hsub

end STA

namespace STA

/-- Evaluation of the stable sort on a two-element list. -/
lemma mergeSort_pair {α : Type} (le : α → α → Bool) (a b : α) :
    [a, b].mergeSort le = if le a b then [a, b] else [b, a] := by
  rw [List.mergeSort]
  simp only [List.splitInTwo, List.splitAt_eq]
  norm_num [List.merge, List.mergeSort]

/-- **C3 (counterexample).** With reference date 9999-12-10, a batch of two
otherwise-identical tasks — first an *undated* task (id 2), then a task
dated 9999-12-31 (id 1, 15 working days away, so both urgency factors are
exactly 0.25 and the scores tie) — is returned with the undated task
*first*: a task lacking a due date is not ordered after all dated tasks,
because the sentinel `"9999-12-31"` ties with a real due date of
9999-12-31 and the stable sort keeps input order. -/
theorem sort_missing_due_counterexample :
    (⟨9999, 12, 31⟩ : PDate).Valid ∧
    ((score_tasks
        [⟨2, "b", Option.none, Option.some 4, Option.none, []⟩,
         ⟨1, "a", Option.some ⟨9999, 12, 31⟩, Option.some 4, Option.none, []⟩]
        "smart_balance" ⟨9999, 12, 10⟩).tasks.map (fun r => (r.id, r.due_date)))
      = [((2 : ℤ), (Option.none : Option PDate)),
         ((1 : ℤ), Option.some ⟨9999, 12, 31⟩)] := by
  refine ⟨by decide, ?_⟩
  have hout : (score_tasks
        [⟨2, "b", Option.none, Option.some 4, Option.none, []⟩,
         ⟨1, "a", Option.some ⟨9999, 12, 31⟩, Option.some 4, Option.none, []⟩]
        "smart_balance" ⟨9999, 12, 10⟩).tasks
      = [scoreOne (resolveWeights "smart_balance")
            (build_graph [⟨2, "b", Option.none, Option.some 4, Option.none, []⟩,
              ⟨1, "a", Option.some ⟨9999, 12, 31⟩, Option.some 4, Option.none, []⟩]).2.2
            (cycleNodes (detect_cycles (build_graph
              [⟨2, "b", Option.none, Option.some 4, Option.none, []⟩,
               ⟨1, "a", Option.some ⟨9999, 12, 31⟩, Option.some 4, Option.none, []⟩]).1))
            (maxHoursOf [⟨2, "b", Option.none, Option.some 4, Option.none, []⟩,
              ⟨1, "a", Option.some ⟨9999, 12, 31⟩, Option.some 4, Option.none, []⟩])
            ⟨9999, 12, 10⟩
            ⟨2, "b", Option.none, Option.some 4, Option.none, []⟩,
         scoreOne (resolveWeights "smart_balance")
            (build_graph [⟨2, "b", Option.none, Option.some 4, Option.none, []⟩,
              ⟨1, "a", Option.some ⟨9999, 12, 31⟩, Option.some 4, Option.none, []⟩]).2.2
            (cycleNodes (detect_cycles (build_graph
              [⟨2, "b", Option.none, Option.some 4, Option.none, []⟩,
               ⟨1, "a", Option.some ⟨9999, 12, 31⟩, Option.some 4, Option.none, []⟩]).1))
            (maxHoursOf [⟨2, "b", Option.none, Option.some 4, Option.none, []⟩,
              ⟨1, "a", Option.some ⟨9999, 12, 31⟩, Option.some 4, Option.none, []⟩])
            ⟨9999, 12, 10⟩
            ⟨1, "a", Option.some ⟨9999, 12, 31⟩, Option.some 4, Option.none, []⟩].mergeSort
          keyLEb := rfl
  rw [hout]
  -- the two scored records have exactly equal (unrounded, hence rounded) scores
  have hcyc : detect_cycles (build_graph
      [(⟨2, "b", Option.none, Option.some 4, Option.none, []⟩ : NormalizedTask),
       ⟨1, "a", Option.some ⟨9999, 12, 31⟩, Option.some 4, Option.none, []⟩]).1 = [] := by
    decide
  have h15 : workingDaysUntil ⟨9999, 12, 31⟩ ⟨9999, 12, 10⟩ = 15 := by decide
  have hu : urgency (Option.some ⟨9999, 12, 31⟩) ⟨9999, 12, 10⟩
      = urgency Option.none ⟨9999, 12, 10⟩ := by
    simp only [urgency, h15]
    norm_num
  have hd2 : downstream_block_count 2 (build_graph
      [(⟨2, "b", Option.none, Option.some 4, Option.none, []⟩ : NormalizedTask),
       ⟨1, "a", Option.some ⟨9999, 12, 31⟩, Option.some 4, Option.none, []⟩]).2.2 = 0 := by
    decide
  have hd1 : downstream_block_count 1 (build_graph
      [(⟨2, "b", Option.none, Option.some 4, Option.none, []⟩ : NormalizedTask),
       ⟨1, "a", Option.some ⟨9999, 12, 31⟩, Option.some 4, Option.none, []⟩]).2.2 = 0 := by
    decide
  have hfinal : finalValue (resolveWeights "smart_balance")
        (build_graph [⟨2, "b", Option.none, Option.some 4, Option.none, []⟩,
          ⟨1, "a", Option.some ⟨9999, 12, 31⟩, Option.some 4, Option.none, []⟩]).2.2
        (cycleNodes (detect_cycles (build_graph
          [⟨2, "b", Option.none, Option.some 4, Option.none, []⟩,
           ⟨1, "a", Option.some ⟨9999, 12, 31⟩, Option.some 4, Option.none, []⟩]).1))
        (maxHoursOf [⟨2, "b", Option.none, Option.some 4, Option.none, []⟩,
          ⟨1, "a", Option.some ⟨9999, 12, 31⟩, Option.some 4, Option.none, []⟩])
        ⟨9999, 12, 10⟩
        ⟨2, "b", Option.none, Option.some 4, Option.none, []⟩
      = finalValue (resolveWeights "smart_balance")
        (build_graph [⟨2, "b", Option.none, Option.some 4, Option.none, []⟩,
          ⟨1, "a", Option.some ⟨9999, 12, 31⟩, Option.some 4, Option.none, []⟩]).2.2
        (cycleNodes (detect_cycles (build_graph
          [⟨2, "b", Option.none, Option.some 4, Option.none, []⟩,
           ⟨1, "a", Option.some ⟨9999, 12, 31⟩, Option.some 4, Option.none, []⟩]).1))
        (maxHoursOf [⟨2, "b", Option.none, Option.some 4, Option.none, []⟩,
          ⟨1, "a", Option.some ⟨9999, 12, 31⟩, Option.some 4, Option.none, []⟩])
        ⟨9999, 12, 10⟩
        ⟨1, "a", Option.some ⟨9999, 12, 31⟩, Option.some 4, Option.none, []⟩ := by
    unfold finalValue baseValue
    rw [hcyc]
    dsimp only
    rw [hu, hd1, hd2]
    simp [cycleNodes]
  have hkey : keyLEb (scoreOne (resolveWeights "smart_balance")
        (build_graph [⟨2, "b", Option.none, Option.some 4, Option.none, []⟩,
          ⟨1, "a", Option.some ⟨9999, 12, 31⟩, Option.some 4, Option.none, []⟩]).2.2
        (cycleNodes (detect_cycles (build_graph
          [⟨2, "b", Option.none, Option.some 4, Option.none, []⟩,
           ⟨1, "a", Option.some ⟨9999, 12, 31⟩, Option.some 4, Option.none, []⟩]).1))
        (maxHoursOf [⟨2, "b", Option.none, Option.some 4, Option.none, []⟩,
          ⟨1, "a", Option.some ⟨9999, 12, 31⟩, Option.some 4, Option.none, []⟩])
        ⟨9999, 12, 10⟩
        ⟨2, "b", Option.none, Option.some 4, Option.none, []⟩)
      (scoreOne (resolveWeights "smart_balance")
        (build_graph [⟨2, "b", Option.none, Option.some 4, Option.none, []⟩,
          ⟨1, "a", Option.some ⟨9999, 12, 31⟩, Option.some 4, Option.none, []⟩]).2.2
        (cycleNodes (detect_cycles (build_graph
          [⟨2, "b", Option.none, Option.some 4, Option.none, []⟩,
           ⟨1, "a", Option.some ⟨9999, 12, 31⟩, Option.some 4, Option.none, []⟩]).1))
        (maxHoursOf [⟨2, "b", Option.none, Option.some 4, Option.none, []⟩,
          ⟨1, "a", Option.some ⟨9999, 12, 31⟩, Option.some 4, Option.none, []⟩])
        ⟨9999, 12, 10⟩
        ⟨1, "a", Option.some ⟨9999, 12, 31⟩, Option.some 4, Option.none, []⟩) = true := by
    apply decide_eq_true
    unfold keyLE
    refine Or.inr ⟨?_, Or.inr ⟨rfl, le_refl _⟩⟩
    show -(pyRound2 _) = -(pyRound2 _)
    rw [hfinal]
  rw [mergeSort_pair, hkey]
  simp only [if_true]
  rfl

end STA
